import Mathlib

/-!
Verification of the gdcli safety/state core against its specification.

The definitions below are a shallow embedding of the Go sources:
`internal/budget/budget.go`, `internal/idempotency/idempotency.go`,
`internal/rate/rate.go`, `internal/safety` (token engine),
`internal/store/store.go` and `internal/services/services.go`
(`services.go` as shipped concatenates two revisions of the file; the
embedding follows the newer revision, the one the reservation and
finalization line references point into).

Modelling conventions:
- `float64` amounts are modelled as `ℚ` (exact rational semantics of the
  arithmetic the code performs).
- A Go `time.Time` is modelled as `GoTime`: an absolute instant in seconds
  plus the fixed UTC offset of its location.  `t.Before(u)` compares
  absolute instants; `time.Date(Y,M,D,0,0,0,0,loc)` of a time is its local
  midnight.  Token-engine code only ever compares UTC instants, so there
  times are plain `Int` seconds.
- Errors are the tagged `AppError` values the code builds, with the fields
  the claims mention (code, message, retryable flag, wrapped cause).
- `store.LoadAndSaveTokens` (present in the source) reads the store, runs
  the mutator and writes back only when the mutator returns nil; a mutator
  error leaves the file untouched.  The embeddings of the token and ledger
  operations encode exactly that read-mutate-maybe-write discipline.
-/

namespace GdCli

/-- A Go `time.Time`: absolute instant (seconds) plus the fixed UTC offset
(seconds) of its location. -/
structure GoTime where
  abs : Int
  offset : Int
deriving DecidableEq, Repr

/-- Seconds in a day. -/
def daySecs : Int := 86400

/-- The calendar day (days since epoch) of `t` in its own location:
`t.Year()/Month()/Day()` collapse to this under a fixed offset. -/
def localDay (t : GoTime) : Int := (t.abs + t.offset).fdiv daySecs

/-- `t.UTC()`: same instant, offset zero. -/
def goUTC (t : GoTime) : GoTime := ⟨t.abs, 0⟩

/-- The UTC calendar day of `t`. -/
def utcDay (t : GoTime) : Int := t.abs.fdiv daySecs

/-- `time.Date(now.Year(), now.Month(), now.Day(), 0, 0, 0, 0, now.Location())`
as an absolute instant: the local midnight that starts `now`'s calendar day. -/
def dayStart (t : GoTime) : Int := daySecs * localDay t - t.offset

/-- Day component of `idempotency.OperationKey`: the code hashes
`now.UTC().Format("2006-01-02")`, i.e. the calendar day of `now.UTC()`. -/
def operationKeyDay (t : GoTime) : Int := localDay (goUTC t)

/-- Error kinds of the `internal/errors` taxonomy. -/
inductive ErrCode where
  | validation
  | auth
  | rateLimited
  | provider
  | budget
  | confirmation
  | safety
  | partialFailure
  | internal
deriving DecidableEq, Repr

/-- A Go error as the code surfaces it: a tagged `AppError` (code, message,
retryable flag) with `.app` for a nil `Cause` and `.wrap` for a non-nil one,
or the caller context's cancellation error (`ctx.Err()`). -/
inductive GoError where
  | app (code : ErrCode) (message : String) (retryable : Bool)
  | wrap (code : ErrCode) (message : String) (retryable : Bool) (cause : GoError)
  | ctxDone
deriving DecidableEq, Repr

/-- Configuration fields the budget gate reads. -/
structure Config where
  maxPricePerDomain : ℚ
  maxDailySpend : ℚ
  maxDomainsPerDay : Int
deriving DecidableEq, Repr

/-- An operation-ledger entry (`store.Operation`). -/
structure Operation where
  operationID : String
  type : String
  domain : String
  amount : ℚ
  currency : String
  createdAt : GoTime
  status : String
deriving DecidableEq, Repr

def budgetSpendErr : GoError := .app .budget "daily spend cap exceeded" false

def budgetCountErr : GoError := .app .budget "daily domain count cap exceeded" false

def reserveConflictErr : GoError := .app .rateLimited "operation already in progress" false

def finalizeSpendErr : GoError :=
  .app .budget "daily spend cap exceeded by finalized provider amount" false

def finalizeCountErr : GoError :=
  .app .budget "daily domain count cap exceeded by finalized provider amount" false

def priceCurrencyErr : GoError := .app .validation "only USD prices are supported in v1" false

def priceCapErr : GoError := .app .budget "price exceeds max_price_per_domain" false

/-- `budget.CheckPrice`. -/
def CheckPrice (cfg : Config) (price : ℚ) (currency : String) : Option GoError :=
  if currency ≠ "USD" then some priceCurrencyErr
  else if price > cfg.maxPricePerDomain then some priceCapErr
  else none

/-- Whether `op.CreatedAt` lies in `[ds, ds + 24h)` (the code's
`op.CreatedAt.Before(dayStart) || !op.CreatedAt.Before(dayEnd)` skip,
negated). -/
def inWindow (ds : Int) (op : Operation) : Bool :=
  decide (ds ≤ op.createdAt.abs) && decide (op.createdAt.abs < ds + daySecs)

/-- Kind filter shared by every daily aggregation. -/
def isSpendKind (op : Operation) : Bool :=
  op.type == "purchase" || op.type == "renew"

/-- Entry filter of `budget.CheckDailyCaps`: in the window, status
`succeeded`, kind purchase/renew. -/
def capsCounted (ds : Int) (op : Operation) : Bool :=
  inWindow ds op && op.status == "succeeded" && isSpendKind op

/-- Entry filter of the reservation/finalization aggregations: in the
window, kind purchase/renew, status `succeeded` or `pending`. -/
def dayCounted (ds : Int) (op : Operation) : Bool :=
  inWindow ds op && isSpendKind op && (op.status == "succeeded" || op.status == "pending")

/-- Sum of amounts of a list of entries. -/
def opsSpend (l : List Operation) : ℚ := (l.map Operation.amount).sum

/-- The aggregation loop of `budget.CheckDailyCaps`. -/
def capsScan (ds : Int) : List Operation → ℚ → Int → ℚ × Int
  | [], spend, count => (spend, count)
  | op :: rest, spend, count =>
    if capsCounted ds op then capsScan ds rest (spend + op.amount) (count + 1)
    else capsScan ds rest spend count

/-- `budget.CheckDailyCaps` (pure over a config snapshot, a clock and the
ledger contents read from disk). -/
def CheckDailyCaps (cfg : Config) (now : GoTime) (ops : List Operation)
    (candidatePrice : ℚ) : Option GoError :=
  let ds := dayStart now
  let t := capsScan ds ops 0 0
  if t.1 + candidatePrice > cfg.maxDailySpend then some budgetSpendErr
  else if t.2 + 1 > cfg.maxDomainsPerDay then some budgetCountErr
  else none

/-- Outcome of the single scan loop inside `reserveOperation`. -/
inductive ReserveScan where
  | foundSucceeded
  | foundPending
  | totals (spend : ℚ) (count : Int)
deriving DecidableEq, Repr

/-- The scan loop of `reserveOperation`: first id match in status
`succeeded`/`pending` short-circuits; every other entry feeds the daily
aggregate when it passes the window/kind/status filters. -/
def reserveScan (operationID : String) (ds : Int) :
    List Operation → ℚ → Int → ReserveScan
  | [], spend, count => .totals spend count
  | op :: rest, spend, count =>
    if op.operationID = operationID ∧ op.status = "succeeded" then .foundSucceeded
    else if op.operationID = operationID ∧ op.status = "pending" then .foundPending
    else if dayCounted ds op then reserveScan operationID ds rest (spend + op.amount) (count + 1)
    else reserveScan operationID ds rest spend count

/-- Result of `reserveOperation`: the `already_succeeded` flag, the surfaced
error, and the ledger contents after the call (per the load-lock-mutate-save
discipline, unchanged unless the mutator returned nil). -/
structure ReserveResult where
  alreadySucceeded : Bool
  err : Option GoError
  ops : List Operation
deriving DecidableEq, Repr

/-- `(*Service).reserveOperation` from `internal/services/services.go`. -/
def reserveOperation (cfg : Config) (opType domain : String) (amount : ℚ)
    (currency operationID : String) (now : GoTime) (ops : List Operation) :
    ReserveResult :=
  let ds := dayStart now
  match reserveScan operationID ds ops 0 0 with
  | .foundSucceeded => ⟨true, none, ops⟩
  | .foundPending => ⟨false, some reserveConflictErr, ops⟩
  | .totals spend count =>
    if spend + amount > cfg.maxDailySpend then ⟨false, some budgetSpendErr, ops⟩
    else if count + 1 > cfg.maxDomainsPerDay then ⟨false, some budgetCountErr, ops⟩
    else ⟨false, none,
      ops ++ [⟨operationID, opType, domain, amount, currency, now, "pending"⟩]⟩

/-- Index of the last entry with the given operation id (the locate loop of
`finalizeOperation` keeps overwriting `index` on every match). -/
def lastIdxOf (oid : String) : List Operation → Option Nat
  | [] => none
  | op :: rest =>
    match lastIdxOf oid rest with
    | some i => some (i + 1)
    | none => if op.operationID = oid then some 0 else none

/-- Zero value used only to read a list cell whose index is known valid. -/
def defaultOp : Operation := ⟨"", "", "", 0, "", ⟨0, 0⟩, ""⟩

/-- Go's `strings.TrimSpace`: drop leading and trailing whitespace. -/
def goTrimSpace (s : String) : String :=
  ⟨((s.data.dropWhile Char.isWhitespace).reverse.dropWhile Char.isWhitespace).reverse⟩

/-- The re-check aggregation loop of `finalizeOperation`: all entries except
the located index, filtered by window, kind and status pending/succeeded. -/
def finalizeAgg (skip : Nat) (ds : Int) : List Operation → Nat → ℚ → Int → ℚ × Int
  | [], _, spend, count => (spend, count)
  | op :: rest, i, spend, count =>
    if i = skip then finalizeAgg skip ds rest (i + 1) spend count
    else if dayCounted ds op then finalizeAgg skip ds rest (i + 1) (spend + op.amount) (count + 1)
    else finalizeAgg skip ds rest (i + 1) spend count

/-- Result of `finalizeOperation`: the surfaced policy error and the ledger
contents written back (this mutator always returns nil, so it always writes). -/
structure FinalizeResult where
  err : Option GoError
  ops : List Operation
deriving DecidableEq, Repr

/-- `(*Service).finalizeOperation` from `internal/services/services.go`. -/
def finalizeOperation (cfg : Config) (operationID : String) (amount : ℚ)
    (currency status : String) (now : GoTime) (ops : List Operation) :
    FinalizeResult :=
  match lastIdxOf operationID ops with
  | none => ⟨none, ops ++ [⟨operationID, "unknown", "", amount, currency, now, status⟩]⟩
  | some index =>
    let op := ops.getD index defaultOp
    let ds := dayStart op.createdAt
    let agg := finalizeAgg index ds ops 0 0 0
    let overSpend := status == "succeeded" && decide (agg.1 + amount > cfg.maxDailySpend)
    let overCount := status == "succeeded" && decide (agg.2 + 1 > cfg.maxDomainsPerDay)
    let statusF := if overSpend || overCount then "failed" else status
    let policyErr : Option GoError :=
      if overCount then some finalizeCountErr
      else if overSpend then some finalizeSpendErr
      else none
    let op' : Operation :=
      { op with amount := amount,
                currency := if goTrimSpace currency ≠ "" then currency else op.currency,
                status := statusF }
    ⟨policyErr, ops.set index op'⟩

/-- A confirmation token (`store.ConfirmToken`); instants are UTC seconds. -/
structure ConfirmToken where
  tokenID : String
  domain : String
  quotedPrice : ℚ
  currency : String
  issuedAt : Int
  expiresAt : Int
  used : Bool
  operationKey : String
deriving DecidableEq, Repr

/-- `store.TokenStore`. -/
structure TokenStore where
  tokens : List ConfirmToken
deriving DecidableEq, Repr

def notFoundErr : GoError := .app .confirmation "confirmation token not found" false

def domainMismatchErr : GoError := .app .confirmation "token domain mismatch" false

def alreadyUsedErr : GoError := .app .confirmation "confirmation token already used" false

def expiredErr : GoError := .app .confirmation "confirmation token expired" false

/-- `safety.pruneTokens`: drop used tokens and tokens whose expiry lies
strictly before the cutoff (`cutoff.After(tok.ExpiresAt)`). -/
def pruneTokens (now : Int) (l : List ConfirmToken) : List ConfirmToken :=
  l.filter (fun tok => !tok.used && !decide (tok.expiresAt < now))

/-- `t.Used = true` on a token. -/
def markUsed (tok : ConfirmToken) : ConfirmToken := { tok with used := true }

/-- The locate-and-consume loop of `safety.ValidateAndUseToken`: `none` when
no token has the id (the `found` flag stays false); otherwise the callback
outcome at the first id match, with the mutated list on success. -/
def scanConsume (tokenID domain : String) (now : Int) :
    List ConfirmToken → Option (Except GoError (ConfirmToken × List ConfirmToken))
  | [] => none
  | tok :: rest =>
    if tok.tokenID ≠ tokenID then
      match scanConsume tokenID domain now rest with
      | none => none
      | some (.error e) => some (.error e)
      | some (.ok (u, rest')) => some (.ok (u, tok :: rest'))
    else if tok.domain ≠ domain then some (.error domainMismatchErr)
    else if tok.used then some (.error alreadyUsedErr)
    else if decide (tok.expiresAt < now) then some (.error expiredErr)
    else some (.ok (markUsed tok, markUsed tok :: rest))

/-- `safety.ValidateAndUseToken`: runs under `store.LoadAndSaveTokens`, so a
callback error leaves the store unchanged, while nil callback outcomes
persist the pruned (and, on success, mutated) list. -/
def ValidateAndUseToken (tokenID domain : String) (now : Int) (s : TokenStore) :
    Except GoError ConfirmToken × TokenStore :=
  let pruned := pruneTokens now s.tokens
  match scanConsume tokenID domain now pruned with
  | some (.ok (u, l)) => (.ok u, ⟨l⟩)
  | some (.error e) => (.error e, s)
  | none => (.error notFoundErr, ⟨pruned⟩)

/-- The locate loop of the validate-only operation: like `scanConsume` but
returning the snapshot without mutating the list. -/
def scanValidate (tokenID domain : String) (now : Int) :
    List ConfirmToken → Option (Except GoError ConfirmToken)
  | [] => none
  | tok :: rest =>
    if tok.tokenID ≠ tokenID then scanValidate tokenID domain now rest
    else if tok.domain ≠ domain then some (.error domainMismatchErr)
    else if tok.used then some (.error alreadyUsedErr)
    else if decide (tok.expiresAt < now) then some (.error expiredErr)
    else some (.ok tok)

/-- Modelled from the spec: `safety.ValidateToken`, the split validate
operation the current `PurchaseConfirm` calls; its body is not among the
provided sources (only its caller is).  Spec §4.5: prune, locate by id,
return confirmation errors for not_found / domain_mismatch / already_used /
expired, and return the token snapshot WITHOUT marking it used — atomically
under the token-store lock with the same write-on-nil discipline as
`ValidateAndUseToken`. -/
def ValidateToken (tokenID domain : String) (now : Int) (s : TokenStore) :
    Except GoError ConfirmToken × TokenStore :=
  let pruned := pruneTokens now s.tokens
  match scanValidate tokenID domain now pruned with
  | some (.ok tok) => (.ok tok, ⟨pruned⟩)
  | some (.error e) => (.error e, s)
  | none => (.error notFoundErr, ⟨pruned⟩)

/-- Modelled from the spec: `safety.MarkTokenUsed`, the split consume
operation the current `PurchaseConfirm` calls; its body is not among the
provided sources.  Spec §4.5: prune, locate, set `used = true` — the same
locate-and-consume behaviour `ValidateAndUseToken` implements. -/
def MarkTokenUsed (tokenID domain : String) (now : Int) (s : TokenStore) :
    Except GoError ConfirmToken × TokenStore :=
  ValidateAndUseToken tokenID domain now s

/-- The loop of `rate.Retry`, indexed by the attempt counter `i` and the
remaining budget (`attempts - i`).  The body closure is modelled by the
`(retryable, error)` pair it returns on each attempt; `ctxExpired i` says
whether the caller's context is done during the backoff wait that follows
attempt `i` (the `select` then returns `ctx.Err()`). -/
def retryGo (fn : Nat → Bool × Option GoError) (ctxExpired : Nat → Bool) :
    Nat → Nat → Option GoError
  | _, 0 => none
  | i, rem + 1 =>
    match fn i with
    | (_, none) => none
    | (retryable, some e) =>
      if !retryable then some e
      else if rem = 0 then some (.wrap .rateLimited "request exhausted retries" true e)
      else if ctxExpired i then some .ctxDone
      else retryGo fn ctxExpired (i + 1) rem

/-- `rate.Retry` (`attempts < 1` is clamped to 1 by the code). -/
def Retry (attempts : Nat) (fn : Nat → Bool × Option GoError)
    (ctxExpired : Nat → Bool) : Option GoError :=
  retryGo fn ctxExpired 0 (max attempts 1)

/-- `doV2ThenV1` from the newer services revision: the v2/v1 closures are
modelled by their outcome pairs (value, error); the middle component of the
result is the api-version annotation (`true` = v2). -/
def doV2ThenV1 {T : Type} (zero : T) (useV2 : Bool)
    (runV2 runV1 : T × Option GoError) : T × Bool × Option GoError :=
  if !useV2 then (runV1.1, false, runV1.2)
  else
    match runV2.2 with
    | none => (runV2.1, true, none)
    | some _ =>
      match runV1.2 with
      | none => (runV1.1, false, none)
      | some v1Err => (zero, false, some v1Err)

/-- Numeric inputs accepted by `normalizeProviderPrice`, in the exact-value
semantics of the Go branches: `float` covers `float64`/`float32` and
non-integer `json.Number`/string parses, `int` covers `int`/`int64` and
integer `json.Number`/string parses. -/
inductive ProviderPriceValue where
  | float (x : ℚ)
  | int (n : ℤ)
deriving DecidableEq, Repr

def microsQ : ℚ := 1000000

/-- `isWholeNumber`: `math.Abs(v - math.Round(v)) < 1e-9`. -/
def isWholeNumber (v : ℚ) : Bool := decide (|v - round v| < 1 / 1000000000)

/-- The numeric value an input denotes. -/
def valueOf : ProviderPriceValue → ℚ
  | .float x => x
  | .int n => (n : ℚ)

/-- `normalizeProviderPrice` (godaddy client): returns (price, raw, unit). -/
def normalizeProviderPrice : ProviderPriceValue → ℚ × ℚ × String
  | .float x =>
    if isWholeNumber x && decide (x ≥ microsQ) then (x / microsQ, x, "micros")
    else (x, x, "usd")
  | .int n =>
    if decide ((n : ℚ) ≥ microsQ) then ((n : ℚ) / microsQ, (n : ℚ), "micros")
    else ((n : ℚ), (n : ℚ), "usd")

/-- Unit scale named by the claim: 1,000,000 for "micros", 1 for "usd". -/
def unitScale (u : String) : ℚ := if u = "micros" then microsQ else 1

/-- `godaddy.PurchaseResult`. -/
structure PurchaseResult where
  domain : String
  price : ℚ
  currency : String
  orderID : String
  alreadyBought : Bool
deriving DecidableEq, Repr

/-- Externally visible effects of one `PurchaseConfirm` run, in order. -/
inductive ConfirmEvent where
  | providerCall (ok : Bool)
  | finalizeCall (status : String)
  | markUsedCall
deriving DecidableEq, Repr

/-- Result of a `PurchaseConfirm` run: the returned value, the token store
and ledger after the run, and the ordered effect trace. -/
structure ConfirmOutcome where
  result : Except GoError PurchaseResult
  tokens : TokenStore
  ledger : List Operation
  events : List ConfirmEvent
deriving Repr

/-- `(*Service).PurchaseConfirm` (newer services revision), with the
provider call (the `rate.Retry`-wrapped `Client.Purchase`) abstracted by its
net outcome `providerRes` and the wall clocks passed explicitly (`nowTok`
for the token operations, `nowLedger` for the ledger operations). -/
def PurchaseConfirm (cfg : Config) (domain token : String) (nowTok : Int)
    (nowLedger : GoTime) (providerRes : Except GoError PurchaseResult)
    (tokens : TokenStore) (ledger : List Operation) : ConfirmOutcome :=
  match ValidateToken token domain nowTok tokens with
  | (.error e, ts1) => ⟨.error e, ts1, ledger, []⟩
  | (.ok tok, ts1) =>
    match CheckPrice cfg tok.quotedPrice tok.currency with
    | some e => ⟨.error e, ts1, ledger, []⟩
    | none =>
      let r := reserveOperation cfg "purchase" domain tok.quotedPrice tok.currency
        tok.operationKey nowLedger ledger
      match r.err with
      | some e => ⟨.error e, ts1, r.ops, []⟩
      | none =>
        if r.alreadySucceeded then
          let m := MarkTokenUsed token domain nowTok ts1
          ⟨.ok ⟨domain, tok.quotedPrice, tok.currency, "", true⟩, m.2, r.ops, [.markUsedCall]⟩
        else
          match providerRes with
          | .error e =>
            let f := finalizeOperation cfg tok.operationKey tok.quotedPrice tok.currency
              "failed" nowLedger r.ops
            ⟨.error e, ts1, f.ops, [.providerCall false, .finalizeCall "failed"]⟩
          | .ok res0 =>
            let res1 := if res0.price = 0 then { res0 with price := tok.quotedPrice } else res0
            let res := if res1.currency = "" then { res1 with currency := tok.currency } else res1
            match CheckPrice cfg res.price res.currency with
            | some e =>
              let f := finalizeOperation cfg tok.operationKey res.price res.currency
                "failed" nowLedger r.ops
              ⟨.error e, ts1, f.ops, [.providerCall true, .finalizeCall "failed"]⟩
            | none =>
              match finalizeOperation cfg tok.operationKey res.price res.currency
                "succeeded" nowLedger r.ops with
              | ⟨some e, l2⟩ =>
                ⟨.error e, ts1, l2, [.providerCall true, .finalizeCall "succeeded"]⟩
              | ⟨none, l2⟩ =>
                let m := MarkTokenUsed token domain nowTok ts1
                ⟨.ok res, m.2, l2,
                  [.providerCall true, .finalizeCall "succeeded", .markUsedCall]⟩

/-- The daily-caps check as claim C2 words it: aggregate the calendar day's
purchase/renew entries in status pending OR succeeded. -/
def CheckDailyCapsClaim (cfg : Config) (now : GoTime) (ops : List Operation)
    (candidatePrice : ℚ) : Option GoError :=
  let counted := ops.filter (dayCounted (dayStart now))
  if opsSpend counted + candidatePrice > cfg.maxDailySpend then some budgetSpendErr
  else if (counted.length : Int) + 1 > cfg.maxDomainsPerDay then some budgetCountErr
  else none

/-- The daily-caps check with the aggregation stated as a filter, keeping
the status filter the code actually applies (succeeded only). -/
def CheckDailyCapsSpec (cfg : Config) (now : GoTime) (ops : List Operation)
    (candidatePrice : ℚ) : Option GoError :=
  let counted := ops.filter (capsCounted (dayStart now))
  if opsSpend counted + candidatePrice > cfg.maxDailySpend then some budgetSpendErr
  else if (counted.length : Int) + 1 > cfg.maxDomainsPerDay then some budgetCountErr
  else none

lemma capsScan_eq (ds : Int) (l : List Operation) (a : ℚ) (c : Int) :
    capsScan ds l a c =
      (a + opsSpend (l.filter (capsCounted ds)),
       c + ((l.filter (capsCounted ds)).length : Int)) := by
  induction l generalizing a c with
  | nil => simp [capsScan, opsSpend]
  | cons op rest ih =>
    by_cases h : capsCounted ds op
    · simp [capsScan, h, ih, opsSpend]
      constructor
      · ring
      · ring
    · simp [capsScan, h, ih, opsSpend]

/-- Claim C2 (counterexample): `CheckDailyCaps` does NOT aggregate pending
entries.  One pending purchase of 90 today with max_daily_spend 100 and a
candidate price of 20: the claim's aggregation (pending or succeeded) demands
a budget error, the code returns none. -/
theorem claim_C2_counterexample :
    CheckDailyCaps ⟨25, 100, 5⟩ ⟨36000, 0⟩
      [⟨"id1", "purchase", "a.com", 90, "USD", ⟨36000, 0⟩, "pending"⟩] 20 = none ∧
    CheckDailyCapsClaim ⟨25, 100, 5⟩ ⟨36000, 0⟩
      [⟨"id1", "purchase", "a.com", 90, "USD", ⟨36000, 0⟩, "pending"⟩] 20 =
      some budgetSpendErr := by
  constructor
  · simp [CheckDailyCaps, capsScan, capsCounted, inWindow, isSpendKind, dayStart,
      localDay, daySecs]
    norm_num
  · simp [CheckDailyCapsClaim, dayCounted, inWindow, isSpendKind, dayStart,
      localDay, daySecs, opsSpend]
    norm_num

/-- Claim C2 (amended): `budget.CheckDailyCaps` aggregates exactly the ledger
entries whose created_at lies within the calendar day of now, whose kind is
purchase or renew, and whose status is succeeded (pending entries are NOT
counted); it returns a budget error if the aggregated spend plus the
candidate price exceeds max_daily_spend, or if the aggregated count plus one
exceeds max_domains_per_day, and no error otherwise. -/
theorem claim_C2 (cfg : Config) (now : GoTime) (ops : List Operation)
    (candidatePrice : ℚ) :
    CheckDailyCaps cfg now ops candidatePrice =
      CheckDailyCapsSpec cfg now ops candidatePrice := by
  simp [CheckDailyCaps, CheckDailyCapsSpec, capsScan_eq]

/-- Claim C6 (counterexample): `OperationKey` does NOT derive its day
component from the local-time day boundary, and it is NOT consistent with
the local calendar-day window of the cap checks: at the UTC instant 0 in a
UTC-1 location, the key's day stamp is day 0 while the local window
classifies the same moment into day -1 (window start -82800). -/
theorem claim_C6_counterexample :
    ¬ (operationKeyDay ⟨0, -3600⟩ = localDay ⟨0, -3600⟩ ∧
       daySecs * operationKeyDay ⟨0, -3600⟩ = dayStart ⟨0, -3600⟩) := by
  decide

/-- Claim C6 (amended): `OperationKey` computes its day component from the
UTC day boundary of now (`now.UTC().Format("2006-01-02")`), while
`check_daily_caps` windows the calendar day at the local midnight of now;
the two classifications coincide (for every instant) exactly when the
location offset is zero. -/
theorem claim_C6 (t : GoTime) :
    operationKeyDay t = utcDay t ∧
    (t.offset = 0 → daySecs * operationKeyDay t = dayStart t) := by
  refine ⟨by simp [operationKeyDay, localDay, goUTC, utcDay], fun h => ?_⟩
  simp [dayStart, operationKeyDay, localDay, goUTC, utcDay, h]

/-- Witness for claim C6: at a UTC-location instant the key day and the cap
window agree. -/
theorem claim_C6_witness :
    (⟨5, 0⟩ : GoTime).offset = 0 ∧ daySecs * operationKeyDay ⟨5, 0⟩ = dayStart ⟨5, 0⟩ :=
  ⟨rfl, (claim_C6 ⟨5, 0⟩).2 rfl⟩

lemma isWholeNumber_intCast (n : ℤ) : isWholeNumber (n : ℚ) = true := by
  simp [isWholeNumber]

lemma unitScale_micros : unitScale "micros" = microsQ := by
  simp [unitScale]

lemma unitScale_usd : unitScale "usd" = 1 := by
  rw [unitScale, if_neg (by decide)]

/-- Claim C9 (counterexample): the normalizer's wholeness test is a 1e-9
tolerance, not exact wholeness.  The value 1000000 + 1/10^10 is not a whole
number, so the claim mandates unit "usd", but the code classifies it as
"micros". -/
theorem claim_C9_counterexample :
    (normalizeProviderPrice (.float (1000000 + 1 / 10000000000))).2.2 = "micros" ∧
    ¬ ∃ n : ℤ, (1000000 + 1 / 10000000000 : ℚ) = (n : ℚ) := by
  constructor
  · have hr : round (1000000 + 1 / 10000000000 : ℚ) = 1000000 := by
      rw [round_eq]
      refine Int.floor_eq_iff.mpr ⟨by norm_num, by norm_num⟩
    have hd : (1000000 + 1 / 10000000000 : ℚ) - ((1000000 : ℤ) : ℚ) = 1 / 10000000000 := by
      push_cast
      ring
    have hwhole : isWholeNumber (1000000 + 1 / 10000000000 : ℚ) = true := by
      rw [isWholeNumber, decide_eq_true_eq, hr, hd,
        abs_of_nonneg (by norm_num : (0 : ℚ) ≤ 1 / 10000000000)]
      norm_num
    have hge : (1000000 + 1 / 10000000000 : ℚ) ≥ microsQ := by
      rw [microsQ]
      norm_num
    have hc : (isWholeNumber (1000000 + 1 / 10000000000 : ℚ) &&
        decide ((1000000 + 1 / 10000000000 : ℚ) ≥ microsQ)) = true := by
      rw [hwhole, decide_eq_true hge]
      rfl
    simp only [normalizeProviderPrice]
    rw [hc]
    simp
  · rintro ⟨n, hn⟩
    have h2 : (10000000000 : ℚ) * n = 10000000000000001 := by
      rw [← hn]
      norm_num
    have h3 : (10000000000 : ℤ) * n = 10000000000000001 := by exact_mod_cast h2
    omega

/-- Claim C9 (amended): for every numeric value accepted by the normalizer,
the raw amount is preserved, the round-trip equation
price · unit_scale = raw holds exactly in the rational model, and the unit
is "micros" precisely when the value is within the normalizer's 1e-9
whole-number tolerance and at least 1,000,000 (integers always pass the
tolerance), otherwise "usd" with price = raw. -/
theorem claim_C9 (v : ProviderPriceValue) :
    (normalizeProviderPrice v).2.1 = valueOf v ∧
    (normalizeProviderPrice v).1 * unitScale (normalizeProviderPrice v).2.2 =
      (normalizeProviderPrice v).2.1 ∧
    (normalizeProviderPrice v).2.2 =
      (if isWholeNumber (valueOf v) && decide (valueOf v ≥ microsQ) then "micros"
       else "usd") := by
  have hm : (microsQ : ℚ) ≠ 0 := by
    rw [microsQ]
    norm_num
  cases v with
  | float x =>
    by_cases h1 : isWholeNumber x = true
    · by_cases h2 : x ≥ microsQ
      · have h2' : decide (x ≥ microsQ) = true := decide_eq_true h2
        simp [normalizeProviderPrice, valueOf, unitScale_micros, h1, h2', h2,
          div_mul_cancel₀ _ hm]
      · have h2' : decide (x ≥ microsQ) = false := decide_eq_false h2
        simp [normalizeProviderPrice, valueOf, unitScale_usd, h1, h2', h2]
    · have h1' : isWholeNumber x = false := by simpa using h1
      simp [normalizeProviderPrice, valueOf, unitScale_usd, h1']
  | int n =>
    by_cases h2 : (n : ℚ) ≥ microsQ
    · have h2' : decide ((n : ℚ) ≥ microsQ) = true := decide_eq_true h2
      simp [normalizeProviderPrice, valueOf, unitScale_micros, isWholeNumber_intCast,
        h2', h2, div_mul_cancel₀ _ hm]
    · have h2' : decide ((n : ℚ) ≥ microsQ) = false := decide_eq_false h2
      simp [normalizeProviderPrice, valueOf, unitScale_usd, isWholeNumber_intCast,
        h2', h2]

/-- Claim C8: capability routing with the v2 shape selected — v2 success is
returned with the v2 annotation; on v2 failure the v1 result is returned
with the v1 annotation; when both fail, the surfaced error is the v1
failure. -/
theorem claim_C8 (T : Type) (zero : T) (runV2 runV1 : T × Option GoError) :
    (runV2.2 = none → doV2ThenV1 zero true runV2 runV1 = (runV2.1, true, none)) ∧
    (runV2.2.isSome → runV1.2 = none →
      doV2ThenV1 zero true runV2 runV1 = (runV1.1, false, none)) ∧
    (∀ e1, runV2.2.isSome → runV1.2 = some e1 →
      doV2ThenV1 zero true runV2 runV1 = (zero, false, some e1)) := by
  refine ⟨fun h2 => ?_, fun h2 h1 => ?_, fun e1 h2 h1 => ?_⟩
  · simp [doV2ThenV1, h2]
  · cases hv : runV2.2 with
    | none => simp [hv] at h2
    | some e2 => simp [doV2ThenV1, hv, h1]
  · cases hv : runV2.2 with
    | none => simp [hv] at h2
    | some e2 => simp [doV2ThenV1, hv, h1]

/-- Witness for claim C8: the three routing outcomes at concrete inputs. -/
theorem claim_C8_witness :
    doV2ThenV1 0 true ((1 : Nat), none) (2, none) = (1, true, none) ∧
    doV2ThenV1 0 true ((1 : Nat), some GoError.ctxDone) (2, none) = (2, false, none) ∧
    doV2ThenV1 0 true ((1 : Nat), some GoError.ctxDone)
        (2, some (GoError.app .auth "denied" false)) =
      (0, false, some (GoError.app .auth "denied" false)) :=
  ⟨(claim_C8 Nat 0 (1, none) (2, none)).1 rfl,
   (claim_C8 Nat 0 (1, some GoError.ctxDone) (2, none)).2.1 rfl rfl,
   (claim_C8 Nat 0 (1, some GoError.ctxDone)
      (2, some (GoError.app .auth "denied" false))).2.2
     (GoError.app .auth "denied" false) rfl rfl⟩

/-- The j-th body invocation fails and reports itself retryable. -/
def failsRetryably (fn : Nat → Bool × Option GoError) (j : Nat) : Prop :=
  (fn j).1 = true ∧ (fn j).2.isSome = true

lemma retryGo_step (fn : Nat → Bool × Option GoError) (done : Nat → Bool)
    (i rem : Nat) (hf : failsRetryably fn i) (hrem : rem ≠ 0)
    (hd : done i = false) :
    retryGo fn done i (rem + 1) = retryGo fn done (i + 1) rem := by
  obtain ⟨h1, h2⟩ := hf
  obtain ⟨e, he⟩ := Option.isSome_iff_exists.mp h2
  have hfn : fn i = (true, some e) := Prod.ext h1 he
  simp [retryGo, hfn, hrem, hd]

lemma retryGo_skip (fn : Nat → Bool × Option GoError) (done : Nat → Bool)
    (k : Nat) :
    ∀ i rem, (∀ j, j < k → failsRetryably fn (i + j) ∧ done (i + j) = false) →
    retryGo fn done i (k + rem + 1) = retryGo fn done (i + k) (rem + 1) := by
  induction k with
  | zero =>
    intro i rem _
    simp
  | succ k ih =>
    intro i rem h
    have h0 := h 0 (Nat.succ_pos k)
    rw [show k + 1 + rem + 1 = (k + rem + 1) + 1 by omega,
      retryGo_step fn done i (k + rem + 1) (by simpa using h0.1) (by omega)
        (by simpa using h0.2),
      ih (i + 1) rem (fun j hj => by
        have := h (j + 1) (by omega)
        constructor
        · have hx := this.1
          rw [show i + 1 + j = i + (j + 1) by omega]
          exact hx
        · have hx := this.2
          rw [show i + 1 + j = i + (j + 1) by omega]
          exact hx),
      show i + 1 + k = i + (k + 1) by omega]

lemma retryGo_none (fn : Nat → Bool × Option GoError) (done : Nat → Bool)
    (i rem : Nat) (h : (fn i).2 = none) :
    retryGo fn done i (rem + 1) = none := by
  cases hfn : fn i with
  | mk r o =>
    rw [hfn] at h
    simp at h
    simp [retryGo, hfn, h]

lemma retryGo_nonretryable (fn : Nat → Bool × Option GoError) (done : Nat → Bool)
    (i rem : Nat) (e : GoError) (h : fn i = (false, some e)) :
    retryGo fn done i (rem + 1) = some e := by
  simp [retryGo, h]

lemma retryGo_last (fn : Nat → Bool × Option GoError) (done : Nat → Bool)
    (i : Nat) (e : GoError) (h1 : (fn i).1 = true) (he : (fn i).2 = some e) :
    retryGo fn done i 1 =
      some (.wrap .rateLimited "request exhausted retries" true e) := by
  have hfn : fn i = (true, some e) := Prod.ext h1 he
  simp [retryGo, hfn]

lemma retryGo_cancel (fn : Nat → Bool × Option GoError) (done : Nat → Bool)
    (i rem : Nat) (e : GoError) (h1 : (fn i).1 = true) (he : (fn i).2 = some e)
    (hrem : rem ≠ 0) (hd : done i = true) :
    retryGo fn done i (rem + 1) = some .ctxDone := by
  have hfn : fn i = (true, some e) := Prod.ext h1 he
  simp [retryGo, hfn, hrem, hd]

lemma Retry_eq_retryGo (attempts : Nat) (fn : Nat → Bool × Option GoError)
    (done : Nat → Bool) (hatt : 1 ≤ attempts) :
    Retry attempts fn done = retryGo fn done 0 attempts := by
  rw [Retry, Nat.max_eq_left hatt]

/-- Claim C7: `rate.Retry` returns nil as soon as the body returns a nil
error; returns the body's error unchanged when retryable is false; returns
a synthetic rate_limited error wrapping the last cause after all attempts
failed retryably; and when the caller's context fires during a backoff
wait, returns the caller's cancellation error. -/
theorem claim_C7 (attempts : Nat) (fn : Nat → Bool × Option GoError)
    (done : Nat → Bool) (hatt : 1 ≤ attempts) :
    (∀ k, k < attempts →
        (∀ j, j < k → failsRetryably fn j ∧ done j = false) →
        (fn k).2 = none → Retry attempts fn done = none) ∧
    (∀ k e, k < attempts →
        (∀ j, j < k → failsRetryably fn j ∧ done j = false) →
        fn k = (false, some e) → Retry attempts fn done = some e) ∧
    (∀ e, (∀ j, j < attempts → failsRetryably fn j) →
        (∀ j, j + 1 < attempts → done j = false) →
        (fn (attempts - 1)).2 = some e →
        Retry attempts fn done =
          some (.wrap .rateLimited "request exhausted retries" true e)) ∧
    (∀ k, k + 1 < attempts →
        (∀ j, j ≤ k → failsRetryably fn j) →
        (∀ j, j < k → done j = false) → done k = true →
        Retry attempts fn done = some .ctxDone) := by
  refine ⟨?_, ?_, ?_, ?_⟩
  · intro k hk hpre hnone
    obtain ⟨rem, hrem⟩ : ∃ rem, attempts = k + rem + 1 := ⟨attempts - k - 1, by omega⟩
    rw [Retry_eq_retryGo attempts fn done hatt, hrem,
      retryGo_skip fn done k 0 rem (fun j hj => by simpa using hpre j hj)]
    exact retryGo_none fn done (0 + k) rem (by simpa using hnone)
  · intro k e hk hpre hfn
    obtain ⟨rem, hrem⟩ : ∃ rem, attempts = k + rem + 1 := ⟨attempts - k - 1, by omega⟩
    rw [Retry_eq_retryGo attempts fn done hatt, hrem,
      retryGo_skip fn done k 0 rem (fun j hj => by simpa using hpre j hj)]
    exact retryGo_nonretryable fn done (0 + k) rem e (by simpa using hfn)
  · intro e hfail hdone hlast
    obtain ⟨k, hk⟩ : ∃ k, attempts = k + 1 := ⟨attempts - 1, by omega⟩
    rw [Retry_eq_retryGo attempts fn done hatt,
      show attempts = k + 0 + 1 by omega,
      retryGo_skip fn done k 0 0 (fun j hj => by
        refine ⟨by simpa using hfail j (by omega), by simpa using hdone j (by omega)⟩)]
    have h1 : (fn (0 + k)).1 = true := by
      simpa using (hfail k (by omega)).1
    have he : (fn (0 + k)).2 = some e := by
      have : attempts - 1 = k := by omega
      rw [this] at hlast
      simpa using hlast
    exact retryGo_last fn done (0 + k) e h1 he
  · intro k hk hfail hdone hd
    obtain ⟨rem, hrem⟩ : ∃ rem, attempts = k + rem + 1 ∧ rem ≠ 0 :=
      ⟨attempts - k - 1, by omega, by omega⟩
    obtain ⟨hrem1, hrem2⟩ := hrem
    obtain ⟨e, he⟩ := Option.isSome_iff_exists.mp (hfail k (le_refl k)).2
    rw [Retry_eq_retryGo attempts fn done hatt, hrem1,
      retryGo_skip fn done k 0 rem (fun j hj => by
        refine ⟨by simpa using hfail j (by omega), by simpa using hdone j (by omega)⟩)]
    exact retryGo_cancel fn done (0 + k) rem e
      (by simpa using (hfail k (le_refl k)).1) (by simpa using he) hrem2
      (by simpa using hd)

/-- Witness for claim C7: the four stop conditions at concrete inputs. -/
theorem claim_C7_witness :
    Retry 2 (fun _ => (true, none)) (fun _ => false) = none ∧
    Retry 2 (fun _ => (false, some (.app .auth "boom" false))) (fun _ => false) =
      some (.app .auth "boom" false) ∧
    Retry 2 (fun _ => (true, some (.app .provider "boom" true))) (fun _ => false) =
      some (.wrap .rateLimited "request exhausted retries" true
        (.app .provider "boom" true)) ∧
    Retry 3 (fun _ => (true, some (.app .provider "boom" true)))
        (fun i => decide (i = 0)) = some .ctxDone := by
  refine ⟨?_, ?_, ?_, ?_⟩
  · exact (claim_C7 2 _ _ (by norm_num)).1 0 (by norm_num)
      (fun j hj => absurd hj (Nat.not_lt_zero j)) rfl
  · exact (claim_C7 2 _ _ (by norm_num)).2.1 0 (.app .auth "boom" false) (by norm_num)
      (fun j hj => absurd hj (Nat.not_lt_zero j)) rfl
  · exact (claim_C7 2 _ _ (by norm_num)).2.2.1 (.app .provider "boom" true)
      (fun j _ => ⟨rfl, rfl⟩) (fun j _ => rfl) rfl
  · exact (claim_C7 3 _ _ (by norm_num)).2.2.2 0 (by norm_num)
      (fun j _ => ⟨rfl, rfl⟩) (fun j hj => absurd hj (Nat.not_lt_zero j)) rfl

/-- `reserveOperation` as claim C1 words it: dedupe on a succeeded entry
first, then the pending conflict, then the calendar-day aggregation stated
as a filter, and the append only in the remaining case. -/
def reserveSpec (cfg : Config) (opType domain : String) (amount : ℚ)
    (currency oid : String) (now : GoTime) (ops : List Operation) : ReserveResult :=
  if ∃ op ∈ ops, op.operationID = oid ∧ op.status = "succeeded" then ⟨true, none, ops⟩
  else if ∃ op ∈ ops, op.operationID = oid ∧ op.status = "pending" then
    ⟨false, some reserveConflictErr, ops⟩
  else
    let counted := ops.filter (dayCounted (dayStart now))
    if opsSpend counted + amount > cfg.maxDailySpend then ⟨false, some budgetSpendErr, ops⟩
    else if (counted.length : Int) + 1 > cfg.maxDomainsPerDay then
      ⟨false, some budgetCountErr, ops⟩
    else ⟨false, none, ops ++ [⟨oid, opType, domain, amount, currency, now, "pending"⟩]⟩

lemma reserveScan_totals (oid : String) (ds : Int) (l : List Operation) :
    ∀ a c, (∀ op ∈ l, ¬(op.operationID = oid ∧
        (op.status = "succeeded" ∨ op.status = "pending"))) →
    reserveScan oid ds l a c =
      .totals (a + opsSpend (l.filter (dayCounted ds)))
        (c + ((l.filter (dayCounted ds)).length : Int)) := by
  induction l with
  | nil =>
    intro a c _
    simp [reserveScan, opsSpend]
  | cons op rest ih =>
    intro a c h
    have hop := h op (List.mem_cons_self op rest)
    have hs : ¬(op.operationID = oid ∧ op.status = "succeeded") :=
      fun hx => hop ⟨hx.1, Or.inl hx.2⟩
    have hp : ¬(op.operationID = oid ∧ op.status = "pending") :=
      fun hx => hop ⟨hx.1, Or.inr hx.2⟩
    have hrest := fun (a : ℚ) (c : Int) =>
      ih a c (fun o ho => h o (List.mem_cons_of_mem op ho))
    by_cases hd : dayCounted ds op
    · simp [reserveScan, hs, hp, hd, hrest, opsSpend]
      constructor
      · ring
      · ring
    · simp [reserveScan, hs, hp, hd, hrest, opsSpend]

lemma reserveScan_succeeded (oid : String) (ds : Int) (l : List Operation) :
    ∀ a c, (∃ op ∈ l, op.operationID = oid ∧ op.status = "succeeded") →
    (∀ op ∈ l, ¬(op.operationID = oid ∧ op.status = "pending")) →
    reserveScan oid ds l a c = .foundSucceeded := by
  induction l with
  | nil =>
    rintro a c ⟨op, hmem, _⟩ _
    exact absurd hmem (List.not_mem_nil op)
  | cons op rest ih =>
    rintro a c ⟨op', hmem, hid, hst⟩ hnp
    by_cases hs : op.operationID = oid ∧ op.status = "succeeded"
    · simp [reserveScan, hs]
    · have hmem' : op' ∈ rest := by
        rcases List.mem_cons.mp hmem with h | h
        · subst h
          exact absurd ⟨hid, hst⟩ hs
        · exact h
      have hp : ¬(op.operationID = oid ∧ op.status = "pending") :=
        hnp op (List.mem_cons_self op rest)
      have hrest := ih (a := if dayCounted ds op then a + op.amount else a)
        (c := if dayCounted ds op then c + 1 else c) ⟨op', hmem', hid, hst⟩
        (fun o ho => hnp o (List.mem_cons_of_mem op ho))
      by_cases hd : dayCounted ds op
      · simp only [hd] at hrest
        simp [reserveScan, hs, hp, hd]
        simpa using hrest
      · simp only [hd] at hrest
        simp [reserveScan, hs, hp, hd]
        simpa using hrest

lemma reserveScan_pending (oid : String) (ds : Int) (l : List Operation) :
    ∀ a c, (∃ op ∈ l, op.operationID = oid ∧ op.status = "pending") →
    (∀ op ∈ l, ¬(op.operationID = oid ∧ op.status = "succeeded")) →
    reserveScan oid ds l a c = .foundPending := by
  induction l with
  | nil =>
    rintro a c ⟨op, hmem, _⟩ _
    exact absurd hmem (List.not_mem_nil op)
  | cons op rest ih =>
    rintro a c ⟨op', hmem, hid, hst⟩ hns
    have hs : ¬(op.operationID = oid ∧ op.status = "succeeded") :=
      hns op (List.mem_cons_self op rest)
    by_cases hp : op.operationID = oid ∧ op.status = "pending"
    · simp [reserveScan, hs, hp]
    · have hmem' : op' ∈ rest := by
        rcases List.mem_cons.mp hmem with h | h
        · subst h
          exact absurd ⟨hid, hst⟩ hp
        · exact h
      have hrest := ih (a := if dayCounted ds op then a + op.amount else a)
        (c := if dayCounted ds op then c + 1 else c) ⟨op', hmem', hid, hst⟩
        (fun o ho => hns o (List.mem_cons_of_mem op ho))
      by_cases hd : dayCounted ds op
      · simp only [hd] at hrest
        simp [reserveScan, hs, hp, hd]
        simpa using hrest
      · simp only [hd] at hrest
        simp [reserveScan, hs, hp, hd]
        simpa using hrest

/-- Claim C1: `reserveOperation` — on a ledger where the operation id is not
simultaneously recorded as pending and as succeeded (the only states the
protocol produces), a succeeded entry for the id yields
already_succeeded=true with no write; a pending entry yields the
rate_limited conflict with no write; otherwise the calendar-day
pending+succeeded purchase/renew aggregate gates the caps, a violation
yields a budget error with no write, and only in the remaining case a new
pending entry is appended. -/
theorem claim_C1 (cfg : Config) (opType domain : String) (amount : ℚ)
    (currency oid : String) (now : GoTime) (ops : List Operation)
    (hexcl : ¬((∃ op ∈ ops, op.operationID = oid ∧ op.status = "succeeded") ∧
               (∃ op ∈ ops, op.operationID = oid ∧ op.status = "pending"))) :
    reserveOperation cfg opType domain amount currency oid now ops =
      reserveSpec cfg opType domain amount currency oid now ops := by
  by_cases hs : ∃ op ∈ ops, op.operationID = oid ∧ op.status = "succeeded"
  · have hnp : ∀ op ∈ ops, ¬(op.operationID = oid ∧ op.status = "pending") := by
      intro op hop hpair
      exact hexcl ⟨hs, ⟨op, hop, hpair⟩⟩
    rw [reserveOperation, reserveScan_succeeded oid (dayStart now) ops 0 0 hs hnp,
      reserveSpec, if_pos hs]
  · by_cases hp : ∃ op ∈ ops, op.operationID = oid ∧ op.status = "pending"
    · have hns : ∀ op ∈ ops, ¬(op.operationID = oid ∧ op.status = "succeeded") := by
        intro op hop hpair
        exact hs ⟨op, hop, hpair⟩
      rw [reserveOperation, reserveScan_pending oid (dayStart now) ops 0 0 hp hns,
        reserveSpec, if_neg hs, if_pos hp]
    · have hnone : ∀ op ∈ ops, ¬(op.operationID = oid ∧
          (op.status = "succeeded" ∨ op.status = "pending")) := by
        rintro op hop ⟨h1, h2 | h2⟩
        · exact hs ⟨op, hop, h1, h2⟩
        · exact hp ⟨op, hop, h1, h2⟩
      rw [reserveOperation, reserveScan_totals oid (dayStart now) ops 0 0 hnone,
        reserveSpec, if_neg hs, if_neg hp]
      simp

/-- Witness for claim C1: a reservation on the empty ledger. -/
theorem claim_C1_witness :
    reserveOperation ⟨25, 100, 5⟩ "purchase" "a.com" 5 "USD" "id1" ⟨0, 0⟩ [] =
      reserveSpec ⟨25, 100, 5⟩ "purchase" "a.com" 5 "USD" "id1" ⟨0, 0⟩ [] :=
  claim_C1 ⟨25, 100, 5⟩ "purchase" "a.com" 5 "USD" "id1" ⟨0, 0⟩ [] (by simp)

lemma finalizeAgg_past (skip : Nat) (ds : Int) (l : List Operation) :
    ∀ i a c, skip < i →
    finalizeAgg skip ds l i a c =
      (a + opsSpend (l.filter (dayCounted ds)),
       c + ((l.filter (dayCounted ds)).length : Int)) := by
  induction l with
  | nil =>
    intro i a c _
    simp [finalizeAgg, opsSpend]
  | cons op rest ih =>
    intro i a c hlt
    have hne : i ≠ skip := by omega
    by_cases hd : dayCounted ds op
    · rw [finalizeAgg, if_neg hne, if_pos hd, ih (i + 1) _ _ (by omega)]
      simp [opsSpend, hd]
      constructor
      · ring
      · ring
    · rw [finalizeAgg, if_neg hne, if_neg hd, ih (i + 1) _ _ (by omega)]
      simp [opsSpend, hd]

lemma finalizeAgg_before (skip : Nat) (ds : Int) (l : List Operation) :
    ∀ i a c, i ≤ skip →
    finalizeAgg skip ds l i a c =
      (a + opsSpend ((l.eraseIdx (skip - i)).filter (dayCounted ds)),
       c + (((l.eraseIdx (skip - i)).filter (dayCounted ds)).length : Int)) := by
  induction l with
  | nil =>
    intro i a c _
    simp [finalizeAgg, opsSpend]
  | cons op rest ih =>
    intro i a c hle
    by_cases heq : i = skip
    · subst heq
      rw [finalizeAgg, if_pos rfl, finalizeAgg_past i ds rest (i + 1) a c (by omega)]
      simp [Nat.sub_self]
    · have hlt : i < skip := by omega
      have hsub : skip - i = (skip - (i + 1)) + 1 := by omega
      rw [finalizeAgg, if_neg heq, hsub]
      by_cases hd : dayCounted ds op
      · rw [if_pos hd, ih (i + 1) _ _ (by omega)]
        simp [List.eraseIdx_cons_succ, opsSpend, hd]
        constructor
        · ring
        · ring
      · rw [if_neg hd, ih (i + 1) _ _ (by omega)]
        simp [List.eraseIdx_cons_succ, opsSpend, hd]

lemma lastIdxOf_eq_none (oid : String) (l : List Operation) :
    lastIdxOf oid l = none ↔ ∀ op ∈ l, op.operationID ≠ oid := by
  induction l with
  | nil => simp [lastIdxOf]
  | cons op rest ih =>
    cases h : lastIdxOf oid rest with
    | some i =>
      simp only [lastIdxOf, h]
      constructor
      · intro hx
        exact Option.noConfusion hx
      · intro hall
        have hnone : lastIdxOf oid rest = none :=
          ih.mpr (fun o ho => hall o (List.mem_cons_of_mem op ho))
        rw [hnone] at h
        exact Option.noConfusion h
    | none =>
      simp only [lastIdxOf, h]
      by_cases hid : op.operationID = oid
      · rw [if_pos hid]
        constructor
        · intro hx
          exact Option.noConfusion hx
        · intro hall
          exact absurd hid (hall op (List.mem_cons_self op rest))
      · rw [if_neg hid]
        constructor
        · intro _ o ho
          rcases List.mem_cons.mp ho with rfl | ho'
          · exact hid
          · exact (ih.mp h) o ho'
        · intro _
          rfl

lemma finalizeOperation_found (cfg : Config) (oid : String) (amount : ℚ)
    (currency status : String) (now : GoTime) (ops : List Operation)
    (index : Nat) (hidx : lastIdxOf oid ops = some index) :
    finalizeOperation cfg oid amount currency status now ops =
      ⟨(if (status == "succeeded" &&
            decide ((((ops.eraseIdx index).filter
                (dayCounted (dayStart (ops.getD index defaultOp).createdAt))).length : Int)
              + 1 > cfg.maxDomainsPerDay)) then some finalizeCountErr
        else if (status == "succeeded" &&
            decide (opsSpend ((ops.eraseIdx index).filter
                (dayCounted (dayStart (ops.getD index defaultOp).createdAt))) + amount >
              cfg.maxDailySpend)) then some finalizeSpendErr
        else none),
       ops.set index
        { ops.getD index defaultOp with
            amount := amount,
            currency := if goTrimSpace currency ≠ "" then currency
              else (ops.getD index defaultOp).currency,
            status :=
              if ((status == "succeeded" &&
                    decide (opsSpend ((ops.eraseIdx index).filter
                        (dayCounted (dayStart (ops.getD index defaultOp).createdAt))) +
                      amount > cfg.maxDailySpend)) ||
                  (status == "succeeded" &&
                    decide ((((ops.eraseIdx index).filter
                        (dayCounted (dayStart (ops.getD index defaultOp).createdAt))).length
                      : Int) + 1 > cfg.maxDomainsPerDay))) then "failed"
              else status }⟩ := by
  simp only [finalizeOperation, hidx]
  rw [finalizeAgg_before index (dayStart (ops.getD index defaultOp).createdAt) ops 0 0 0
    (Nat.zero_le index)]
  simp

/-- Cap-violation predicate of the finalize re-check over the other same-day
pending/succeeded purchase/renew entries (day window of the located entry's
created_at). -/
def finalizeCapsViolated (cfg : Config) (index : Nat) (ops : List Operation)
    (amount : ℚ) : Prop :=
  opsSpend ((ops.eraseIdx index).filter
      (dayCounted (dayStart (ops.getD index defaultOp).createdAt))) + amount >
    cfg.maxDailySpend ∨
  ((((ops.eraseIdx index).filter
      (dayCounted (dayStart (ops.getD index defaultOp).createdAt))).length : Int) + 1 >
    cfg.maxDomainsPerDay)

/-- Claim C5 (counterexample): on finalization the existing entry is NOT
updated with the supplied currency when that currency is blank — the prior
currency is kept.  Finalizing the pending entry with currency "" leaves
"USD" in place, where the claim mandates "". -/
theorem claim_C5_counterexample :
    (finalizeOperation ⟨25, 100, 5⟩ "op1" 13 "" "failed" ⟨36000, 0⟩
        [⟨"op1", "purchase", "a.com", 90, "USD", ⟨36000, 0⟩, "pending"⟩]).ops =
      [⟨"op1", "purchase", "a.com", 13, "USD", ⟨36000, 0⟩, "failed"⟩] ∧
    ((⟨"op1", "purchase", "a.com", 13, "USD", ⟨36000, 0⟩, "failed"⟩ : Operation) ≠
      ⟨"op1", "purchase", "a.com", 13, "", ⟨36000, 0⟩, "failed"⟩) := by
  constructor
  · rw [finalizeOperation_found ⟨25, 100, 5⟩ "op1" 13 "" "failed" ⟨36000, 0⟩
      [⟨"op1", "purchase", "a.com", 90, "USD", ⟨36000, 0⟩, "pending"⟩] 0 (by rfl)]
    simp
    decide
  · intro h
    have := congrArg Operation.currency h
    simp at this

/-- Claim C5 (amended): `finalizeOperation` — an absent operation_id gets a
synthetic entry with the given status; otherwise the last entry with that
id is updated in place (so no second record for the id is created) with the
new amount and status and with the new currency only when it is non-blank,
and a succeeded finalization whose re-check over the other same-day
pending/succeeded purchase/renew entries plus the new amount would break a
cap is demoted to status failed with a budget error. -/
theorem claim_C5 (cfg : Config) (oid : String) (amount : ℚ)
    (currency status : String) (now : GoTime) (ops : List Operation) :
    ((∀ op ∈ ops, op.operationID ≠ oid) →
      finalizeOperation cfg oid amount currency status now ops =
        ⟨none, ops ++ [⟨oid, "unknown", "", amount, currency, now, status⟩]⟩) ∧
    (∀ index, lastIdxOf oid ops = some index →
      ¬(status = "succeeded" ∧ finalizeCapsViolated cfg index ops amount) →
      finalizeOperation cfg oid amount currency status now ops =
        ⟨none, ops.set index
          { ops.getD index defaultOp with
              amount := amount,
              currency := if goTrimSpace currency ≠ "" then currency
                else (ops.getD index defaultOp).currency,
              status := status }⟩) ∧
    (∀ index, lastIdxOf oid ops = some index →
      status = "succeeded" → finalizeCapsViolated cfg index ops amount →
      ∃ msg, finalizeOperation cfg oid amount currency status now ops =
        ⟨some (.app .budget msg false), ops.set index
          { ops.getD index defaultOp with
              amount := amount,
              currency := if goTrimSpace currency ≠ "" then currency
                else (ops.getD index defaultOp).currency,
              status := "failed" }⟩) ∧
    (∀ index, lastIdxOf oid ops = some index →
      (finalizeOperation cfg oid amount currency status now ops).ops.length =
        ops.length) := by
  refine ⟨?_, ?_, ?_, ?_⟩
  · intro hall
    have hnone := (lastIdxOf_eq_none oid ops).mpr hall
    simp only [finalizeOperation, hnone]
  · intro index hidx hnv
    rw [finalizeOperation_found cfg oid amount currency status now ops index hidx]
    by_cases hst : status = "succeeded"
    · have hv : ¬ finalizeCapsViolated cfg index ops amount := fun v => hnv ⟨hst, v⟩
      have h1 : ¬(opsSpend ((ops.eraseIdx index).filter
          (dayCounted (dayStart (ops.getD index defaultOp).createdAt))) + amount >
            cfg.maxDailySpend) := fun hx => hv (Or.inl hx)
      have h2 : ¬((((ops.eraseIdx index).filter
          (dayCounted (dayStart (ops.getD index defaultOp).createdAt))).length : Int) + 1 >
            cfg.maxDomainsPerDay) := fun hx => hv (Or.inr hx)
      have e1 : (status == "succeeded" &&
          decide (opsSpend ((ops.eraseIdx index).filter
              (dayCounted (dayStart (ops.getD index defaultOp).createdAt))) + amount >
            cfg.maxDailySpend)) = false := by
        rw [decide_eq_false h1, Bool.and_false]
      have e2 : (status == "succeeded" &&
          decide ((((ops.eraseIdx index).filter
              (dayCounted (dayStart (ops.getD index defaultOp).createdAt))).length : Int) + 1 >
            cfg.maxDomainsPerDay)) = false := by
        rw [decide_eq_false h2, Bool.and_false]
      simp only [e1, e2, Bool.false_or]
      simp
    · have hb : (status == "succeeded") = false := by simp [hst]
      simp only [hb, Bool.false_and, Bool.false_or]
      simp
  · intro index hidx hst hviol
    rw [finalizeOperation_found cfg oid amount currency status now ops index hidx]
    have hbt : (status == "succeeded") = true := by simp [hst]
    by_cases h2 : (((ops.eraseIdx index).filter
        (dayCounted (dayStart (ops.getD index defaultOp).createdAt))).length : Int) + 1 >
          cfg.maxDomainsPerDay
    · have e2 : (status == "succeeded" &&
          decide ((((ops.eraseIdx index).filter
              (dayCounted (dayStart (ops.getD index defaultOp).createdAt))).length : Int) + 1 >
            cfg.maxDomainsPerDay)) = true := by
        rw [hbt, decide_eq_true h2, Bool.and_self]
      refine ⟨"daily domain count cap exceeded by finalized provider amount", ?_⟩
      simp only [e2, Bool.or_true]
      simp [finalizeCountErr]
    · have h1 : opsSpend ((ops.eraseIdx index).filter
          (dayCounted (dayStart (ops.getD index defaultOp).createdAt))) + amount >
            cfg.maxDailySpend := hviol.resolve_right h2
      have e1 : (status == "succeeded" &&
          decide (opsSpend ((ops.eraseIdx index).filter
              (dayCounted (dayStart (ops.getD index defaultOp).createdAt))) + amount >
            cfg.maxDailySpend)) = true := by
        rw [hbt, decide_eq_true h1, Bool.and_self]
      have e2 : (status == "succeeded" &&
          decide ((((ops.eraseIdx index).filter
              (dayCounted (dayStart (ops.getD index defaultOp).createdAt))).length : Int) + 1 >
            cfg.maxDomainsPerDay)) = false := by
        rw [decide_eq_false h2, Bool.and_false]
      refine ⟨"daily spend cap exceeded by finalized provider amount", ?_⟩
      simp only [e1, e2, Bool.true_or]
      simp [finalizeSpendErr]
  · intro index hidx
    rw [finalizeOperation_found cfg oid amount currency status now ops index hidx]
    simp

/-- Witness for claim C5: a synthetic insert on the empty ledger and an
in-place cap-respecting update. -/
theorem claim_C5_witness :
    finalizeOperation ⟨25, 100, 5⟩ "opW" 7 "USD" "failed" ⟨0, 0⟩ [] =
      ⟨none, [⟨"opW", "unknown", "", 7, "USD", ⟨0, 0⟩, "failed"⟩]⟩ ∧
    finalizeOperation ⟨25, 100, 5⟩ "op1" 13 "EUR" "failed" ⟨36000, 0⟩
        [⟨"op1", "purchase", "a.com", 90, "USD", ⟨36000, 0⟩, "pending"⟩] =
      ⟨none, [⟨"op1", "purchase", "a.com", 13, "EUR", ⟨36000, 0⟩, "failed"⟩]⟩ := by
  constructor
  · exact (claim_C5 ⟨25, 100, 5⟩ "opW" 7 "USD" "failed" ⟨0, 0⟩ []).1 (by simp)
  · have h := (claim_C5 ⟨25, 100, 5⟩ "op1" 13 "EUR" "failed" ⟨36000, 0⟩
      [⟨"op1", "purchase", "a.com", 90, "USD", ⟨36000, 0⟩, "pending"⟩]).2.1 0 (by rfl)
      (by
        rintro ⟨hst, _⟩
        exact absurd hst (by simp))
    rw [h]
    have ht : ¬ goTrimSpace "EUR" = "" := by decide
    simp [defaultOp, ht]

/-- Number of unused tokens with the given id in a token list. -/
def unusedCount (tid : String) (l : List ConfirmToken) : Nat :=
  (l.filter (fun t => t.tokenID == tid && !t.used)).length

/-- Whether a token-consume outcome is a success. -/
def isOkE : Except GoError ConfirmToken → Bool
  | .ok _ => true
  | .error _ => false

/-- A sequence of consume calls (token_id, domain, now) applied one after the
other — the serialization the token-store file lock enforces. -/
def runConsumers :
    List (String × String × Int) → TokenStore →
      List (String × Except GoError ConfirmToken) × TokenStore
  | [], s => ([], s)
  | c :: rest, s =>
    let r := ValidateAndUseToken c.1 c.2.1 c.2.2 s
    let t := runConsumers rest r.2
    ((c.1, r.1) :: t.1, t.2)

/-- How many of the recorded outcomes are successes for the given token id. -/
def successesFor (tid : String)
    (rs : List (String × Except GoError ConfirmToken)) : Nat :=
  (rs.filter (fun p => p.1 == tid && isOkE p.2)).length

lemma pruneTokens_all_unused (now : Int) (l : List ConfirmToken) :
    ∀ t ∈ pruneTokens now l, t.used = false := by
  intro t ht
  have := List.of_mem_filter ht
  simp at this
  exact this.1

lemma pruneTokens_count_le (tid : String) (now : Int) (l : List ConfirmToken) :
    unusedCount tid (pruneTokens now l) ≤ unusedCount tid l := by
  exact List.Sublist.length_le
    (List.Sublist.filter _ (List.filter_sublist l))

lemma unusedCount_zero_no_id (tid : String) (l : List ConfirmToken)
    (hz : unusedCount tid l = 0) (hall : ∀ t ∈ l, t.used = false) :
    ∀ t ∈ l, t.tokenID ≠ tid := by
  intro t ht hid
  have hmem : t ∈ l.filter (fun t => t.tokenID == tid && !t.used) := by
    refine List.mem_filter.mpr ⟨ht, ?_⟩
    simp [hid, hall t ht]
  rw [unusedCount, List.length_eq_zero] at hz
  rw [hz] at hmem
  exact absurd hmem (List.not_mem_nil t)

lemma scanConsume_eq_none (tid d : String) (now : Int) (l : List ConfirmToken)
    (h : ∀ t ∈ l, t.tokenID ≠ tid) :
    scanConsume tid d now l = none := by
  induction l with
  | nil => rfl
  | cons tok rest ih =>
    have hne : tok.tokenID ≠ tid := h tok (List.mem_cons_self tok rest)
    rw [scanConsume, if_pos hne, ih (fun t ht => h t (List.mem_cons_of_mem tok ht))]

lemma scanConsume_not_used (tid d : String) (now : Int) (l : List ConfirmToken)
    (hall : ∀ t ∈ l, t.used = false) :
    scanConsume tid d now l ≠ some (.error alreadyUsedErr) := by
  induction l with
  | nil => simp [scanConsume]
  | cons tok rest ih =>
    have hrest := ih (fun t ht => hall t (List.mem_cons_of_mem tok ht))
    have hu : tok.used = false := hall tok (List.mem_cons_self tok rest)
    by_cases hne : tok.tokenID ≠ tid
    · rw [scanConsume, if_pos hne]
      cases hsc : scanConsume tid d now rest with
      | none => simp
      | some r =>
        cases r with
        | error e =>
          intro hx
          simp at hx
          rw [hx] at hsc
          exact hrest hsc
        | ok p => simp
    · rw [scanConsume, if_neg hne]
      by_cases hd : tok.domain ≠ d
      · rw [if_pos hd]
        simp [domainMismatchErr, alreadyUsedErr]
      · rw [if_neg hd, hu]
        simp only [Bool.false_eq_true, if_false]
        by_cases he : tok.expiresAt < now
        · rw [if_pos (decide_eq_true he)]
          simp [expiredErr, alreadyUsedErr]
        · rw [if_neg (by simp [he])]
          simp

lemma unusedCount_cons (tid : String) (tok : ConfirmToken) (xs : List ConfirmToken) :
    unusedCount tid (tok :: xs) =
      (if (tok.tokenID == tid && !tok.used) = true then 1 else 0) + unusedCount tid xs := by
  rw [unusedCount, List.filter_cons]
  split
  · simp [unusedCount]
    omega
  · simp [unusedCount]

lemma scanConsume_ok_count (tid d : String) (now : Int) :
    ∀ l u l', scanConsume tid d now l = some (.ok (u, l')) →
      unusedCount tid l' + 1 = unusedCount tid l ∧
      (∀ tid', unusedCount tid' l' ≤ unusedCount tid' l) := by
  intro l
  induction l with
  | nil =>
    intro u l' h
    simp [scanConsume] at h
  | cons tok rest ih =>
    intro u l' h
    by_cases hne : tok.tokenID ≠ tid
    · rw [scanConsume, if_pos hne] at h
      cases hsc : scanConsume tid d now rest with
      | none =>
        rw [hsc] at h
        simp at h
      | some r =>
        cases r with
        | error e =>
          rw [hsc] at h
          simp at h
        | ok p =>
          rw [hsc] at h
          simp at h
          obtain ⟨hu, hl'⟩ := h
          obtain ⟨hc1, hc2⟩ := ih p.1 p.2 (by rw [hsc])
          rw [← hl']
          constructor
          · rw [unusedCount_cons, unusedCount_cons]
            have : (tok.tokenID == tid && !tok.used) = false := by
              simp [hne]
            rw [this]
            simp
            omega
          · intro tid'
            rw [unusedCount_cons, unusedCount_cons]
            have := hc2 tid'
            omega
    · push_neg at hne
      rw [scanConsume, if_neg (by simp [hne])] at h
      by_cases hd : tok.domain ≠ d
      · rw [if_pos hd] at h
        simp at h
      · rw [if_neg hd] at h
        by_cases hu2 : tok.used
        · rw [if_pos hu2] at h
          simp at h
        · rw [if_neg hu2] at h
          by_cases he : tok.expiresAt < now
          · rw [if_pos (by simp [he])] at h
            simp at h
          · rw [if_neg (by simp [he])] at h
            simp at h
            obtain ⟨hu, hl'⟩ := h
            rw [← hl']
            have hufalse : tok.used = false := by
              simpa using hu2
            constructor
            · rw [unusedCount_cons, unusedCount_cons]
              have h1 : (tok.tokenID == tid && !tok.used) = true := by
                simp [hne, hufalse]
              have h2 : ((markUsed tok).tokenID == tid && !(markUsed tok).used) = false := by
                simp [markUsed]
              rw [h1, h2]
              simp
              omega
            · intro tid'
              rw [unusedCount_cons, unusedCount_cons]
              have h2 : ((markUsed tok).tokenID == tid' && !(markUsed tok).used) = false := by
                simp [markUsed]
              rw [h2]
              simp

lemma unusedCount_pos_of_mem (tid : String) (l : List ConfirmToken)
    (tok : ConfirmToken) (hmem : tok ∈ l) (hid : tok.tokenID = tid)
    (hu : tok.used = false) : 1 ≤ unusedCount tid l := by
  have hmf : tok ∈ l.filter (fun t => t.tokenID == tid && !t.used) :=
    List.mem_filter.mpr ⟨hmem, by simp [hid, hu]⟩
  exact List.length_pos_of_mem hmf

lemma scanConsume_first (tid d : String) (now : Int) :
    ∀ l tok, tok ∈ l → tok.tokenID = tid → unusedCount tid l ≤ 1 →
      (∀ t ∈ l, t.used = false) → tok.domain = d → ¬(tok.expiresAt < now) →
      ∃ l', scanConsume tid d now l = some (.ok (markUsed tok, l')) := by
  intro l
  induction l with
  | nil =>
    intro tok hmem
    exact absurd hmem (List.not_mem_nil tok)
  | cons hd0 rest ih =>
    intro tok hmem hid hcnt hall hdom hexp
    by_cases hne : hd0.tokenID ≠ tid
    · have hmem' : tok ∈ rest := by
        rcases List.mem_cons.mp hmem with rfl | h
        · exact absurd hid hne
        · exact h
      have hcnt' : unusedCount tid rest ≤ 1 := by
        rw [unusedCount_cons] at hcnt
        omega
      obtain ⟨l', hl'⟩ := ih tok hmem' hid hcnt'
        (fun t ht => hall t (List.mem_cons_of_mem hd0 ht)) hdom hexp
      refine ⟨hd0 :: l', ?_⟩
      rw [scanConsume, if_pos hne, hl']
    · push_neg at hne
      have heq : hd0 = tok := by
        rcases List.mem_cons.mp hmem with h | h
        · exact h.symm
        · exfalso
          have hcr : 1 ≤ unusedCount tid rest :=
            unusedCount_pos_of_mem tid rest tok h hid (hall tok hmem)
          rw [unusedCount_cons] at hcnt
          have hh : (hd0.tokenID == tid && !hd0.used) = true := by
            simp [hne, hall hd0 (List.mem_cons_self hd0 rest)]
          rw [hh] at hcnt
          simp at hcnt
          omega
      subst heq
      refine ⟨markUsed hd0 :: rest, ?_⟩
      rw [scanConsume, if_neg (by simp [hne]), if_neg (by simp [hdom]),
        if_neg (by simp [hall hd0 (List.mem_cons_self hd0 rest)]),
        if_neg (by simp [hexp])]

lemma VAU_count_le (tid t' d : String) (n : Int) (s : TokenStore) :
    unusedCount tid ((ValidateAndUseToken t' d n s).2).tokens ≤
      unusedCount tid s.tokens := by
  rw [ValidateAndUseToken]
  cases hsc : scanConsume t' d n (pruneTokens n s.tokens) with
  | none => simpa using pruneTokens_count_le tid n s.tokens
  | some r =>
    cases r with
    | error e => simp
    | ok p =>
      obtain ⟨u, l'⟩ := p
      simp only []
      have h := scanConsume_ok_count t' d n (pruneTokens n s.tokens) u l' hsc
      exact le_trans (h.2 tid) (pruneTokens_count_le tid n s.tokens)

lemma VAU_zero (tid d : String) (n : Int) (s : TokenStore)
    (h : unusedCount tid s.tokens = 0) :
    (ValidateAndUseToken tid d n s).1 = .error notFoundErr ∧
    unusedCount tid ((ValidateAndUseToken tid d n s).2).tokens = 0 := by
  have hp0 : unusedCount tid (pruneTokens n s.tokens) = 0 :=
    Nat.le_zero.mp (h ▸ pruneTokens_count_le tid n s.tokens)
  have hnone := scanConsume_eq_none tid d n (pruneTokens n s.tokens)
    (unusedCount_zero_no_id tid (pruneTokens n s.tokens) hp0
      (pruneTokens_all_unused n s.tokens))
  rw [ValidateAndUseToken, hnone]
  exact ⟨rfl, hp0⟩

lemma VAU_ok_zero (tid d : String) (n : Int) (s : TokenStore) (u : ConfirmToken)
    (hcnt : unusedCount tid s.tokens ≤ 1)
    (h : (ValidateAndUseToken tid d n s).1 = .ok u) :
    unusedCount tid ((ValidateAndUseToken tid d n s).2).tokens = 0 := by
  rw [ValidateAndUseToken] at h ⊢
  cases hsc : scanConsume tid d n (pruneTokens n s.tokens) with
  | none =>
    rw [hsc] at h
    exact absurd h (by simp)
  | some r =>
    cases r with
    | error e =>
      rw [hsc] at h
      exact absurd h (by simp)
    | ok p =>
      obtain ⟨u', l'⟩ := p
      have hc := (scanConsume_ok_count tid d n (pruneTokens n s.tokens) u' l' hsc).1
      have hple := pruneTokens_count_le tid n s.tokens
      show unusedCount tid l' = 0
      omega

lemma VAU_after_ok (tid d : String) (n : Int) (s : TokenStore) (u : ConfirmToken)
    (d' : String) (n' : Int) (hcnt : unusedCount tid s.tokens ≤ 1)
    (h : (ValidateAndUseToken tid d n s).1 = .ok u) :
    (ValidateAndUseToken tid d' n' ((ValidateAndUseToken tid d n s).2)).1 =
      .error notFoundErr :=
  (VAU_zero tid d' n' ((ValidateAndUseToken tid d n s).2)
    (VAU_ok_zero tid d n s u hcnt h)).1

lemma successesFor_cons (tid t' : String) (r : Except GoError ConfirmToken)
    (rs : List (String × Except GoError ConfirmToken)) :
    successesFor tid ((t', r) :: rs) =
      (if (t' == tid && isOkE r) = true then 1 else 0) + successesFor tid rs := by
  rw [successesFor, List.filter_cons]
  split
  · simp [successesFor]
    omega
  · simp [successesFor]

lemma runConsumers_zero (tid : String) :
    ∀ calls s, unusedCount tid s.tokens = 0 →
      successesFor tid (runConsumers calls s).1 = 0 := by
  intro calls
  induction calls with
  | nil =>
    intro s _
    rfl
  | cons c rest ih =>
    intro s hz
    obtain ⟨t', d', n'⟩ := c
    rw [runConsumers, successesFor_cons]
    dsimp only
    by_cases hid : t' = tid
    · subst hid
      have hv := VAU_zero t' d' n' s hz
      rw [hv.1]
      simp [isOkE, ih ((ValidateAndUseToken t' d' n' s).2) hv.2]
    · have hnext : unusedCount tid ((ValidateAndUseToken t' d' n' s).2).tokens = 0 :=
        Nat.le_zero.mp (hz ▸ VAU_count_le tid t' d' n' s)
      simp [hid, ih ((ValidateAndUseToken t' d' n' s).2) hnext]

lemma runConsumers_le_one (tid : String) :
    ∀ calls s, unusedCount tid s.tokens ≤ 1 →
      successesFor tid (runConsumers calls s).1 ≤ 1 := by
  intro calls
  induction calls with
  | nil =>
    intro s _
    exact Nat.zero_le 1
  | cons c rest ih =>
    intro s hle
    obtain ⟨t', d', n'⟩ := c
    rw [runConsumers, successesFor_cons]
    dsimp only
    by_cases hid : t' = tid
    · subst hid
      cases hr : (ValidateAndUseToken t' d' n' s).1 with
      | ok u =>
        have hzero := VAU_ok_zero t' d' n' s u hle hr
        have hrest := runConsumers_zero t' rest ((ValidateAndUseToken t' d' n' s).2) hzero
        rw [hrest]
        simp [isOkE]
      | error e =>
        have hnext := le_trans (VAU_count_le t' t' d' n' s) hle
        simpa [isOkE] using ih ((ValidateAndUseToken t' d' n' s).2) hnext
    · have hnext := le_trans (VAU_count_le tid t' d' n' s) hle
      simpa [hid] using ih ((ValidateAndUseToken t' d' n' s).2) hnext

/-- Claim C10: the `already used` branch of the consuming operation is dead —
pruning removes used tokens before the scan, so no call ever returns the
already-used confirmation error; and after a successful consume, a later
call with the same token id (the store holding at most one unused token for
that id) finds no stored entry and returns the not-found confirmation
error. -/
theorem claim_C10 :
    (∀ tid d now s,
      (ValidateAndUseToken tid d now s).1 ≠ Except.error alreadyUsedErr) ∧
    (∀ tid d now s u d' now', unusedCount tid s.tokens ≤ 1 →
      (ValidateAndUseToken tid d now s).1 = Except.ok u →
      (ValidateAndUseToken tid d' now' ((ValidateAndUseToken tid d now s).2)).1 =
        Except.error notFoundErr) := by
  constructor
  · intro tid d now s
    rw [ValidateAndUseToken]
    cases hsc : scanConsume tid d now (pruneTokens now s.tokens) with
    | none => simp [notFoundErr, alreadyUsedErr]
    | some r =>
      cases r with
      | error e =>
        have hne := scanConsume_not_used tid d now (pruneTokens now s.tokens)
          (pruneTokens_all_unused now s.tokens)
        show Except.error e ≠ Except.error alreadyUsedErr
        intro hx
        injection hx with he
        rw [he] at hsc
        exact hne hsc
      | ok p =>
        obtain ⟨u, l'⟩ := p
        simp
  · intro tid d now s u d' now' hcnt h
    exact VAU_after_ok tid d now s u d' now' hcnt h

/-- Witness for claim C10: consume a concrete token, then the next call with
the same id reports not-found. -/
theorem claim_C10_witness :
    (ValidateAndUseToken "t1" "b.com" 100
      (ValidateAndUseToken "t1" "a.com" 100
        ⟨[⟨"t1", "a.com", 12, "USD", 0, 600, false, "k1"⟩]⟩).2).1 =
      Except.error notFoundErr :=
  claim_C10.2 "t1" "a.com" 100 ⟨[⟨"t1", "a.com", 12, "USD", 0, 600, false, "k1"⟩]⟩
    (markUsed ⟨"t1", "a.com", 12, "USD", 0, 600, false, "k1"⟩) "b.com" 100
    (by decide) rfl

/-- Claim C4: single-consumption of a confirmation token — with the store
holding the token (uniquely unused for its id), the first consuming call
with the matching domain under a valid clock succeeds and marks the token
used; any later call with that token id returns a confirmation error
(not-found); and over any serialized sequence of consume calls at most one
success is observable for that id. -/
theorem claim_C4 (s : TokenStore) (tid d : String) (now : Int)
    (tok : ConfirmToken) (hmem : tok ∈ s.tokens) (hid : tok.tokenID = tid)
    (hcnt : unusedCount tid s.tokens ≤ 1) (hdom : tok.domain = d)
    (hused : tok.used = false) (hexp : ¬(tok.expiresAt < now)) :
    (ValidateAndUseToken tid d now s).1 = Except.ok (markUsed tok) ∧
    (∀ d' now', (ValidateAndUseToken tid d' now'
        ((ValidateAndUseToken tid d now s).2)).1 = Except.error notFoundErr) ∧
    (∀ calls, successesFor tid (runConsumers calls s).1 ≤ 1) := by
  have hmemp : tok ∈ pruneTokens now s.tokens := by
    refine List.mem_filter.mpr ⟨hmem, ?_⟩
    simp [hused, hexp]
  have hcntp : unusedCount tid (pruneTokens now s.tokens) ≤ 1 :=
    le_trans (pruneTokens_count_le tid now s.tokens) hcnt
  obtain ⟨l', hl'⟩ := scanConsume_first tid d now (pruneTokens now s.tokens) tok
    hmemp hid hcntp (pruneTokens_all_unused now s.tokens) hdom hexp
  have h1 : (ValidateAndUseToken tid d now s).1 = .ok (markUsed tok) := by
    rw [ValidateAndUseToken, hl']
  exact ⟨h1, fun d' now' => VAU_after_ok tid d now s (markUsed tok) d' now' hcnt h1,
    fun calls => runConsumers_le_one tid calls s hcnt⟩

/-- Witness for claim C4: a concrete token consumed once; the repeat call
fails and a two-call trace shows a single success. -/
theorem claim_C4_witness :
    (ValidateAndUseToken "t1" "a.com" 100
        ⟨[⟨"t1", "a.com", 12, "USD", 0, 600, false, "k1"⟩]⟩).1 =
      Except.ok (markUsed ⟨"t1", "a.com", 12, "USD", 0, 600, false, "k1"⟩) ∧
    (ValidateAndUseToken "t1" "b.com" 200
        (ValidateAndUseToken "t1" "a.com" 100
          ⟨[⟨"t1", "a.com", 12, "USD", 0, 600, false, "k1"⟩]⟩).2).1 =
      Except.error notFoundErr ∧
    successesFor "t1" (runConsumers [("t1", "a.com", 100), ("t1", "b.com", 200)]
        ⟨[⟨"t1", "a.com", 12, "USD", 0, 600, false, "k1"⟩]⟩).1 ≤ 1 := by
  have h := claim_C4 ⟨[⟨"t1", "a.com", 12, "USD", 0, 600, false, "k1"⟩]⟩ "t1" "a.com"
    100 ⟨"t1", "a.com", 12, "USD", 0, 600, false, "k1"⟩ (by simp) rfl (by decide)
    rfl rfl (by decide)
  exact ⟨h.1, h.2.1 "b.com" 200, h.2.2 [("t1", "a.com", 100), ("t1", "b.com", 200)]⟩

lemma scanValidate_first (tid d : String) (now : Int) :
    ∀ l tok, tok ∈ l → tok.tokenID = tid → unusedCount tid l ≤ 1 →
      (∀ t ∈ l, t.used = false) → tok.domain = d → ¬(tok.expiresAt < now) →
      scanValidate tid d now l = some (.ok tok) := by
  intro l
  induction l with
  | nil =>
    intro tok hmem
    exact absurd hmem (List.not_mem_nil tok)
  | cons hd0 rest ih =>
    intro tok hmem hid hcnt hall hdom hexp
    by_cases hne : hd0.tokenID ≠ tid
    · have hmem' : tok ∈ rest := by
        rcases List.mem_cons.mp hmem with rfl | h
        · exact absurd hid hne
        · exact h
      have hcnt' : unusedCount tid rest ≤ 1 := by
        rw [unusedCount_cons] at hcnt
        omega
      rw [scanValidate, if_pos hne]
      exact ih tok hmem' hid hcnt'
        (fun t ht => hall t (List.mem_cons_of_mem hd0 ht)) hdom hexp
    · push_neg at hne
      have heq : hd0 = tok := by
        rcases List.mem_cons.mp hmem with h | h
        · exact h.symm
        · exfalso
          have hcr : 1 ≤ unusedCount tid rest :=
            unusedCount_pos_of_mem tid rest tok h hid (hall tok hmem)
          rw [unusedCount_cons] at hcnt
          have hh : (hd0.tokenID == tid && !hd0.used) = true := by
            simp [hne, hall hd0 (List.mem_cons_self hd0 rest)]
          rw [hh] at hcnt
          simp at hcnt
          omega
      subst heq
      rw [scanValidate, if_neg (by simp [hne]), if_neg (by simp [hdom]),
        if_neg (by simp [hall hd0 (List.mem_cons_self hd0 rest)]),
        if_neg (by simp [hexp])]

/-- Claim C3: the split validate operation returns the token snapshot while
the stored token stays unused (`used = false` in the written-back store);
and the purchase-confirm workflow invokes the mark-used operation only
after a verified successful provider mutation — either the reservation
reported the operation as already succeeded (a success recorded in the
ledger by an earlier run), or the provider call of this run returned
success, passed the price re-check and was finalized as succeeded. -/
theorem claim_C3 :
    (∀ tid d now s tok, tok ∈ s.tokens → tok.tokenID = tid →
      unusedCount tid s.tokens ≤ 1 → tok.domain = d → tok.used = false →
      ¬(tok.expiresAt < now) →
      ValidateToken tid d now s = (Except.ok tok, ⟨pruneTokens now s.tokens⟩) ∧
      tok ∈ (ValidateToken tid d now s).2.tokens ∧ tok.used = false) ∧
    (∀ cfg domain token nowTok nowLedger providerRes tokens ledger,
      ConfirmEvent.markUsedCall ∈
        (PurchaseConfirm cfg domain token nowTok nowLedger providerRes
          tokens ledger).events →
      (∃ r, (PurchaseConfirm cfg domain token nowTok nowLedger providerRes
          tokens ledger).result = Except.ok r ∧ r.alreadyBought = true) ∨
      (∃ res, providerRes = Except.ok res ∧
        ConfirmEvent.finalizeCall "succeeded" ∈
          (PurchaseConfirm cfg domain token nowTok nowLedger providerRes
            tokens ledger).events)) := by
  constructor
  · intro tid d now s tok hmem hid hcnt hdom hused hexp
    have hmemp : tok ∈ pruneTokens now s.tokens := by
      refine List.mem_filter.mpr ⟨hmem, ?_⟩
      simp [hused, hexp]
    have hcntp : unusedCount tid (pruneTokens now s.tokens) ≤ 1 :=
      le_trans (pruneTokens_count_le tid now s.tokens) hcnt
    have hsv := scanValidate_first tid d now (pruneTokens now s.tokens) tok hmemp
      hid hcntp (pruneTokens_all_unused now s.tokens) hdom hexp
    have heq : ValidateToken tid d now s = (Except.ok tok, ⟨pruneTokens now s.tokens⟩) := by
      rw [ValidateToken, hsv]
    exact ⟨heq, by rw [heq]; exact hmemp, hused⟩
  · intro cfg domain token nowTok nowLedger providerRes tokens ledger
    simp only [PurchaseConfirm]
    repeat' split
    all_goals intro hm
    all_goals
      first
      | (simp at hm
         done)
      | (left
         exact ⟨_, rfl, rfl⟩)
      | (right
         exact ⟨_, rfl, by simp⟩)

/-- Witness for claim C3: validating a concrete stored token leaves it
unused, and a concrete confirm run that reaches mark-used goes through the
already-succeeded reservation answer. -/
theorem claim_C3_witness :
    (ValidateToken "t1" "a.com" 100
        ⟨[⟨"t1", "a.com", 12, "USD", 0, 600, false, "k1"⟩]⟩ =
      (Except.ok ⟨"t1", "a.com", 12, "USD", 0, 600, false, "k1"⟩,
       ⟨pruneTokens 100 [⟨"t1", "a.com", 12, "USD", 0, 600, false, "k1"⟩]⟩) ∧
     (⟨"t1", "a.com", 12, "USD", 0, 600, false, "k1"⟩ : ConfirmToken) ∈
       (ValidateToken "t1" "a.com" 100
         ⟨[⟨"t1", "a.com", 12, "USD", 0, 600, false, "k1"⟩]⟩).2.tokens ∧
     (⟨"t1", "a.com", 12, "USD", 0, 600, false, "k1"⟩ : ConfirmToken).used = false) ∧
    ((∃ r, (PurchaseConfirm ⟨25, 100, 5⟩ "a.com" "t1" 100 ⟨36000, 0⟩
        (Except.error GoError.ctxDone)
        ⟨[⟨"t1", "a.com", 12, "USD", 0, 600, false, "k1"⟩]⟩
        [⟨"k1", "purchase", "a.com", 12, "USD", ⟨36000, 0⟩, "succeeded"⟩]).result =
          Except.ok r ∧ r.alreadyBought = true) ∨
     (∃ res, (Except.error GoError.ctxDone : Except GoError PurchaseResult) =
          Except.ok res ∧
        ConfirmEvent.finalizeCall "succeeded" ∈
          (PurchaseConfirm ⟨25, 100, 5⟩ "a.com" "t1" 100 ⟨36000, 0⟩
            (Except.error GoError.ctxDone)
            ⟨[⟨"t1", "a.com", 12, "USD", 0, 600, false, "k1"⟩]⟩
            [⟨"k1", "purchase", "a.com", 12, "USD", ⟨36000, 0⟩,
              "succeeded"⟩]).events)) := by
  constructor
  · exact claim_C3.1 "t1" "a.com" 100
      ⟨[⟨"t1", "a.com", 12, "USD", 0, 600, false, "k1"⟩]⟩
      ⟨"t1", "a.com", 12, "USD", 0, 600, false, "k1"⟩
      (by simp) rfl (by decide) rfl rfl (by decide)
  · exact claim_C3.2 ⟨25, 100, 5⟩ "a.com" "t1" 100 ⟨36000, 0⟩
      (Except.error GoError.ctxDone)
      ⟨[⟨"t1", "a.com", 12, "USD", 0, 600, false, "k1"⟩]⟩
      [⟨"k1", "purchase", "a.com", 12, "USD", ⟨36000, 0⟩, "succeeded"⟩]
      (by decide)

end GdCli
